import Mathlib

/-!
Verification of the domharvest-playwright core against its specification.

The JavaScript sources (src/dsl.js, src/harvester.js, src/auth.js) are shallowly
embedded below: pure functions become Lean functions, the DOM and the file system
(external collaborators in the spec) are modelled as explicit data, the cooperative
scheduler is modelled by threading an explicit clock, and thrown errors become
`Except` values.  Encoding conventions: a JS object carrying a `__dsl` tag is the
`SchemaVal.dsl` constructor, any other plain object in a schema is `SchemaVal.objV`,
a JS function is `SchemaVal.funcV`, and remaining scalar values are
`SchemaVal.staticV`.
-/

namespace DomHarvest

/-- Model of a JS runtime value as marshalled in and out of the page context.
`undef` is JS `undefined`, kept distinct from `null` because the DSL code
distinguishes them (`attrValue !== null`). `elemN` is a DOM element reference,
which the array branch of the interpreter can return as-is. -/
inductive Node where
  | elem (tag : String) (attrs : List (String × String)) (children : List Node)
  | textNode (s : String)
deriving Repr

inductive JSValue where
  | null
  | undef
  | str (s : String)
  | num (n : Int)
  | bool (b : Bool)
  | arr (elems : List JSValue)
  | obj (fields : List (String × JSValue))
  | elemN (n : Node)
deriving Repr

/- Text content of a DOM node: concatenation of all text in the subtree
(the browser engine's `textContent`, an external collaborator; it is a string,
never null, for element nodes). -/
mutual

def Node.textContent : Node → String
  | .textNode s => s
  | .elem _ _ children => Node.textContentList children

def Node.textContentList : List Node → String
  | [] => ""
  | n :: ns => Node.textContent n ++ Node.textContentList ns

end

/-- Serialization of attributes for `innerHTML` (browser engine behaviour). -/
def serializeAttrs : List (String × String) → String
  | [] => ""
  | (k, v) :: rest => " " ++ k ++ "=\x22" ++ v ++ "\x22" ++ serializeAttrs rest

/- Markup serialization (browser engine's `innerHTML`/outer serialization). -/
mutual

def Node.serialize : Node → String
  | .textNode s => s
  | .elem tag attrs cs =>
      "<" ++ tag ++ serializeAttrs attrs ++ ">" ++ Node.serializeList cs ++ "</" ++ tag ++ ">"

def Node.serializeList : List Node → String
  | [] => ""
  | n :: ns => Node.serialize n ++ Node.serializeList ns

end

/-- Inner markup of an element; for element nodes this is a string, never null. -/
def Node.innerHTML : Node → String
  | .textNode _ => ""
  | .elem _ _ cs => Node.serializeList cs

/-- The engine's `getAttribute`: the attribute's string value, or null (`none`). -/
def Node.getAttribute (n : Node) (name : String) : Option String :=
  match n with
  | .textNode _ => none
  | .elem _ attrs _ => attrs.lookup name

/- CSS selector matching, modelled for tag-name selectors: `querySelectorAll`
returns all matching descendants (not self) in document (pre-)order.  The CSS
engine itself is part of the external browser engine; tag selectors suffice for
the properties proved here, which only depend on whether a selector matches. -/
mutual

def Node.qsaFrom : Node → String → List Node
  | .textNode _, _ => []
  | .elem tag attrs cs, sel =>
      (if tag = sel then [Node.elem tag attrs cs] else []) ++ Node.qsaList cs sel

def Node.qsaList : List Node → String → List Node
  | [], _ => []
  | n :: ns, sel => Node.qsaFrom n sel ++ Node.qsaList ns sel

end

def Node.querySelectorAll (n : Node) (sel : String) : List Node :=
  match n with
  | .textNode _ => []
  | .elem _ _ cs => Node.qsaList cs sel

def Node.querySelector (n : Node) (sel : String) : Option Node :=
  (n.querySelectorAll sel).head?

/- Field descriptors and schema values (src/dsl.js).  A descriptor's `selector`
is `none` when the JS property is `undefined`/absent. -/
mutual

inductive DSLDef where
  | textD (selector : Option String) (trim : Bool) (dflt : JSValue)
  | attrD (selector : Option String) (attrName : String) (dflt : JSValue)
  | htmlD (selector : Option String) (dflt : JSValue)
  | existsD (selector : Option String)
  | countD (selector : String)
  | arrayD (selector : String) (extractor : SchemaVal)

inductive SchemaVal where
  | dsl (d : DSLDef)
  | objV (fields : List (String × SchemaVal))
  | funcV (f : Node → JSValue)
  | staticV (v : JSValue)

end

/-- Selector of a descriptor, as read by `dslDef.selector` in the source. -/
def DSLDef.selOf : DSLDef → Option String
  | .textD s _ _ => s
  | .attrD s _ _ => s
  | .htmlD s _ => s
  | .existsD s => s
  | .countD s => some s
  | .arrayD s _ => some s

/-- `dslDef.selector ? element.querySelector(dslDef.selector) : element`:
an absent selector and the empty string are both falsy, selecting the element
itself; otherwise the first matching descendant (null when none). -/
def resolveTarget (element : Node) (sel : Option String) : Option Node :=
  match sel with
  | none => some element
  | some s => if s = "" then some element else element.querySelector s

/- Walk of a plain (non-DSL, function-free) JS value by `executeDSLObject`:
scalars are copied, objects are rebuilt field by field, and arrays — being
`typeof 'object'` — are rebuilt as objects keyed by their stringified indices. -/
mutual

def plainCopy : JSValue → JSValue
  | .obj fs => .obj (plainCopyFields fs)
  | .arr vs => .obj (plainCopyItems 0 vs)
  | v => v

def plainCopyFields : List (String × JSValue) → List (String × JSValue)
  | [] => []
  | (k, v) :: rest => (k, plainCopy v) :: plainCopyFields rest

def plainCopyItems (i : Nat) : List JSValue → List (String × JSValue)
  | [] => []
  | v :: rest => (toString i, plainCopy v) :: plainCopyItems (i + 1) rest

end

/- The DSL interpreter of src/dsl.js (`executeDSLExtraction` / `executeDSLObject`),
exactly as executed both host-side and — as an inlined identical copy — inside the
page context by the code `generateDSLCode`/`generateMixedModeCode` produce. -/
mutual

def executeDSLExtraction (element : Node) (dslDef : DSLDef) : JSValue :=
  let targetElement := resolveTarget element dslDef.selOf
  match dslDef with
  | .textD _ trim dflt =>
      -- `targetElement?.textContent` is undefined when the element is missing,
      -- and a (possibly empty) string otherwise
      match targetElement with
      | none => dflt
      | some el => .str (if trim then el.textContent.trim else el.textContent)
  | .attrD _ attrName dflt =>
      -- `attrValue !== null ? attrValue : dslDef.default`: a missing target makes
      -- `targetElement?.getAttribute(...)` undefined, which is not null, so the
      -- source yields undefined here rather than the default
      match targetElement with
      | none => .undef
      | some el =>
          match el.getAttribute attrName with
          | none => dflt
          | some v => .str v
  | .htmlD _ dflt =>
      match targetElement with
      | none => dflt
      | some el => .str el.innerHTML
  | .existsD _ => .bool targetElement.isSome
  | .countD sel => .num (element.querySelectorAll sel).length
  | .arrayD sel ext => .arr (execArrayItems (element.querySelectorAll sel) ext)
termination_by (sizeOf dslDef, 0)

def execArrayItems (els : List Node) (ext : SchemaVal) : List JSValue :=
  match els with
  | [] => []
  | el :: rest => execArrayItem el ext :: execArrayItems rest ext
termination_by (sizeOf ext, els.length)

def execArrayItem (el : Node) (ext : SchemaVal) : JSValue :=
  match ext with
  | .dsl d => executeDSLExtraction el d
  | .objV fs => .obj (execFields el fs)
  | .funcV f => f el
  | .staticV v =>
      match v with
      | .obj fs => .obj (plainCopyFields fs)
      | .arr vs => .obj (plainCopyItems 0 vs)
      | .null => .null -- the source throws here: `typeof null` is 'object', and
                       -- `Object.entries(null)` raises a TypeError
      | _ => .elemN el -- default branch: the element itself is returned
termination_by (sizeOf ext, 0)

def execFields (element : Node) : List (String × SchemaVal) → List (String × JSValue)
  | [] => []
  | (k, v) :: rest => (k, execField element v) :: execFields element rest
termination_by fs => (sizeOf fs, 0)

def execField (element : Node) (v : SchemaVal) : JSValue :=
  match v with
  | .dsl d => executeDSLExtraction element d
  | .objV fs => .obj (execFields element fs)
  | .funcV f => f element
  | .staticV sv => plainCopy sv
termination_by (sizeOf v, 0)

end

/-- The source's `executeDSLObject`, producing one record from a schema object. -/
def executeDSLObject (element : Node) (fields : List (String × SchemaVal)) : JSValue :=
  .obj (execFields element fields)

/-- Placeholder identifier generated for the n-th captured callback
(`` `__FUNC_${functionIndex++}__` `` in `generateMixedModeCode`). -/
def marker (n : Nat) : String := "__FUNC_" ++ toString n ++ "__"

/- `replaceFunctions` of `generateMixedModeCode`: callbacks are replaced by fresh
marker strings and collected (source text capture is modelled by carrying the
function itself, per the spec's assumption that callbacks are self-contained);
values tagged `__dsl` are returned untouched, plain objects are walked. -/
mutual

def replFuns : SchemaVal → Nat → SchemaVal × List (String × (Node → JSValue)) × Nat
  | .funcV f, n => (.staticV (.str (marker n)), [(marker n, f)], n + 1)
  | .dsl d, n => (.dsl d, [], n)
  | .objV fields, n =>
      let r := replFunsFields fields n
      (.objV r.1, r.2.1, r.2.2)
  | .staticV v, n => (.staticV v, [], n)

def replFunsFields :
    List (String × SchemaVal) → Nat →
      List (String × SchemaVal) × List (String × (Node → JSValue)) × Nat
  | [], n => ([], [], n)
  | (k, v) :: rest, n =>
      let r1 := replFuns v n
      let r2 := replFunsFields rest r1.2.2
      ((k, r1.1) :: r2.1, r1.2.1 ++ r2.2.1, r2.2.2)

end

/- `JSON.stringify` followed by reparsing in the page context: functions do not
survive (a function-valued field is dropped, as is an undefined field; a
function-valued array extractor inside a descriptor becomes absent, i.e.
undefined). All other values round-trip. -/
mutual

def jsonRound : SchemaVal → SchemaVal
  | .dsl d => .dsl (jsonRoundDef d)
  | .objV fields => .objV (jsonRoundFields fields)
  | .funcV _ => .staticV .undef
  | .staticV v => .staticV v

def jsonRoundDef : DSLDef → DSLDef
  | .arrayD s ext => .arrayD s (jsonRound ext)
  | d => d

def jsonRoundFields : List (String × SchemaVal) → List (String × SchemaVal)
  | [] => []
  | (_, .funcV _) :: rest => jsonRoundFields rest
  | (_, .staticV .undef) :: rest => jsonRoundFields rest
  | (k, v) :: rest => (k, jsonRound v) :: jsonRoundFields rest

end

/- Splicing the placeholder bindings back into the transported data literal:
`schemaReconstruction.replace('"__FUNC_i__"', '__FUNC_i__')` turns each marker
string back into its callback.  Modelled at the data level: this matches the
string-level replacement whenever no string of the original schema collides with
a generated marker (the theorems carry that side condition). -/
mutual

def subMarkers (binds : List (String × (Node → JSValue))) : SchemaVal → SchemaVal
  | .staticV (.str s) =>
      match binds.lookup s with
      | some f => .funcV f
      | none => .staticV (.str s)
  | .objV fields => .objV (subMarkersFields binds fields)
  | v => v

def subMarkersFields (binds : List (String × (Node → JSValue))) :
    List (String × SchemaVal) → List (String × SchemaVal)
  | [] => []
  | (k, v) :: rest => (k, subMarkers binds v) :: subMarkersFields binds rest

end

/-- The procedure transported by `generateDSLCode` (pure mode): the schema is
serialized as plain data and interpreted in the page context by the inlined copy
of `executeDSLObject`. -/
def generateDSLProc (fields : List (String × SchemaVal)) : Node → JSValue :=
  fun element => .obj (execFields element (jsonRoundFields fields))

/-- The procedure transported by `generateMixedModeCode` (mixed mode): callbacks
are captured and bound to placeholder identifiers, the marked schema travels as a
serialized data literal with the placeholders spliced back in, and the same
generic interpreter runs it on the element. -/
def generateMixedModeProc (fields : List (String × SchemaVal)) : Node → JSValue :=
  let r := replFunsFields fields 0
  let transported := jsonRoundFields r.1
  let reconstructed := subMarkersFields r.2.1 transported
  fun element => .obj (execFields element reconstructed)

/-- A JS error as observed by the resilience layer: its `name` (the error kind of
the taxonomy: NavigationError, TimeoutError, ExtractionError, ...) and `message`. -/
structure JSError where
  name : String
  message : String
deriving Repr, DecidableEq

/-- `calculateBackoff` (src/harvester.js): linear → `min(1000·(attempt+1), maxBackoff)`,
anything else (the 'exponential' default) → `min(1000·2^attempt, maxBackoff)`.
The source defaults `maxBackoff` to 10000. -/
def calculateBackoff (attempt : Nat) (strategy : String) (maxBackoff : Nat) : Nat :=
  if strategy = "linear" then
    min (1000 * (attempt + 1)) maxBackoff
  else
    min (1000 * 2 ^ attempt) maxBackoff

/-- `shouldRetry` (src/harvester.js): a null/absent allow-list (`none`) retries
every error; otherwise retry exactly when the error's name is in the list. -/
def shouldRetry (error : JSError) (retryOn : Option (List String)) : Bool :=
  match retryOn with
  | none => true
  | some names => names.contains error.name

/-- Sliding-window quota: `requests` per `per` time units. -/
structure RLConfig where
  requests : Nat
  per : Nat
deriving Repr, DecidableEq

/-- RateLimiter state: global timestamp list and the per-domain timestamp map
(association list in insertion order, as a JS `Map`). -/
structure RLState where
  globalTimestamps : List Nat
  domainTimestamps : List (String × List Nat)
deriving Repr, DecidableEq

/-- `cleanOldTimestamps`: keep entries strictly newer than `now − windowMs`
(`now` is sampled inside the function, so it is the clock at the moment of the
purge). Integer arithmetic mirrors JS numbers going negative. -/
def cleanOldTimestamps (timestamps : List Nat) (windowMs : Nat) (now : Nat) : List Nat :=
  timestamps.filter (fun ts => (now : Int) - (windowMs : Int) < (ts : Int))

/-- One scope of `waitIfNeeded` (the global and per-domain blocks are textually
identical up to the list they act on). `tNow` is the clock when the block runs
(for the per-domain block this is after any global wait), while `t0` is the
`now` captured once at entry, which the source uses for the wait computation.
Purge, then if the remaining count reaches the quota wait `oldest + per − t0`
(if positive) from `tNow`, then append the post-wait clock. Returns the new
timestamp list and the clock when the block completes. -/
def scopeAcquire (cfg : RLConfig) (ts : List Nat) (tNow t0 : Nat) : List Nat × Nat :=
  let cleaned := cleanOldTimestamps ts cfg.per tNow
  let tDone :=
    if cfg.requests ≤ cleaned.length then
      match cleaned.head? with
      | some oldest =>
          let waitTime : Int := (oldest : Int) + (cfg.per : Int) - (t0 : Int)
          if 0 < waitTime then tNow + waitTime.toNat else tNow
      | none => tNow -- `timestamps[0]` is undefined, `NaN > 0` is false: no wait
    else tNow
  (cleaned ++ [tDone], tDone)

/-- Replace-or-append for the per-domain `Map` (`domainTimestamps.set`). -/
def setAssoc : List (String × List Nat) → String → List Nat → List (String × List Nat)
  | [], d, ts => [(d, ts)]
  | (k, v) :: rest, d, ts =>
      if k = d then (k, ts) :: rest else (k, v) :: setAssoc rest d ts

/-- `RateLimiter.waitIfNeeded`: global scope first, then the per-domain scope when
configured and the domain parsed (`extractDomain`, external URL parsing, is given
as `domain`). `t0` is `Date.now()` at entry; the returned clock is when the call
completes. -/
def waitIfNeeded (globalLimit perDomainLimit : Option RLConfig) (domain : Option String)
    (st : RLState) (t0 : Nat) : RLState × Nat :=
  let g : List Nat × Nat :=
    match globalLimit with
    | some cfg => scopeAcquire cfg st.globalTimestamps t0 t0
    | none => (st.globalTimestamps, t0)
  match perDomainLimit, domain with
  | some cfg, some d =>
      let dts := ((st.domainTimestamps.lookup d).getD [])
      let r := scopeAcquire cfg dts g.2 t0
      (⟨g.1, setAssoc st.domainTimestamps d r.1⟩, r.2)
  | _, _ => (⟨g.1, st.domainTimestamps⟩, g.2)

/-- Observable steps of a `harvest`/`harvestCustom` call, in execution order:
the rate-limiter acquire, backoff sleeps, attempt starts, and the invocation of
`handleError` (which notifies the configured error observer with contextual
metadata) right before the terminal error is thrown. -/
inductive HarvestEvent where
  | rateLimitAcquire
  | sleep (ms : Nat)
  | attemptStart (i : Nat)
  | observeError (e : JSError)
deriving Repr, DecidableEq

/-- The retry loop of `harvest`/`harvestCustom` (src/harvester.js), started at a
given `attempt` index. `attemptResult i` is the outcome of the i-th execution of
the navigation/extraction body (`_performHarvest`, an interaction with the
external browser engine). At the top of an iteration with `attempt > 0` the loop
sleeps `calculateBackoff(attempt−1)`. On success the result is returned at once;
on failure the loop continues only when `attempt < retries` and the error is
retryable, and otherwise `handleError` runs and the last error is thrown. -/
def harvestLoop {A : Type} (attemptResult : Nat → Except JSError A) (retries : Nat)
    (strategy : String) (maxBackoff : Nat) (retryOn : Option (List String))
    (attempt : Nat) : List HarvestEvent × Except JSError A :=
  let pre : List HarvestEvent :=
    (if 0 < attempt then [.sleep (calculateBackoff (attempt - 1) strategy maxBackoff)]
     else []) ++ [.attemptStart attempt]
  match attemptResult attempt with
  | .ok result => (pre, .ok result)
  | .error e =>
      if h : attempt < retries then
        if shouldRetry e retryOn then
          let r := harvestLoop attemptResult retries strategy maxBackoff retryOn (attempt + 1)
          (pre ++ r.1, r.2)
        else (pre ++ [.observeError e], .error e)
      else (pre ++ [.observeError e], .error e)
termination_by retries - attempt

/-- A `harvest` call: when a rate limiter is configured, `waitIfNeeded` is awaited
once, before the retry loop; then the loop runs from attempt 0. -/
def harvestProc {A : Type} (hasRateLimiter : Bool) (attemptResult : Nat → Except JSError A)
    (retries : Nat) (strategy : String) (maxBackoff : Nat)
    (retryOn : Option (List String)) : List HarvestEvent × Except JSError A :=
  let pre : List HarvestEvent := if hasRateLimiter then [.rateLimitAcquire] else []
  let r := harvestLoop attemptResult retries strategy maxBackoff retryOn 0
  (pre ++ r.1, r.2)

/-- A `harvestCustom` call: the source duplicates the same structure (rate-limiter
acquire once before the loop, identical retry/backoff logic around
`page.evaluate`). -/
def harvestCustomProc {A : Type} (hasRateLimiter : Bool)
    (attemptResult : Nat → Except JSError A) (retries : Nat) (strategy : String)
    (maxBackoff : Nat) (retryOn : Option (List String)) :
    List HarvestEvent × Except JSError A :=
  let pre : List HarvestEvent := if hasRateLimiter then [.rateLimitAcquire] else []
  let r := harvestLoop attemptResult retries strategy maxBackoff retryOn 0
  (pre ++ r.1, r.2)

/-- One batch job: its url and the outcome its inner `this.harvest(...)` call
settles with (the job body is an interaction with the external engine). -/
structure BatchConfig (A : Type) where
  url : String
  run : Except JSError A

/-- One batch outcome object: `{success: true, data, url, ...}` or
`{success: false, error, errorName, url, ...}` (the wall-clock `duration`
field is not modelled). -/
inductive BatchOutcome (A : Type) where
  | ok (data : A) (url : String)
  | failed (error : String) (errorName : String) (url : String)
deriving Repr, DecidableEq

/-- The per-job try/catch of `harvestBatch`: a success becomes a success outcome
carrying the data; a thrown error is caught and becomes a failure outcome
carrying `error.message` and `error.name` — it does not escape. -/
def jobOutcome {A : Type} (config : BatchConfig A) : BatchOutcome A :=
  match config.run with
  | .ok data => .ok data config.url
  | .error e => .failed e.message e.name config.url

/-- Consecutive chunks of size `n` (`configs.slice(i, i + concurrency)` with
`i += concurrency`). The fuel argument bounds the iteration count: with `n > 0`
the source loop runs at most `length` iterations, which `chunks` supplies; with
`n = 0` the source loop never terminates, so the claims assume positive
concurrency. -/
def chunksGo (n : Nat) : Nat → List α → List (List α)
  | _, [] => []
  | 0, _ :: _ => []
  | fuel + 1, a :: rest => ((a :: rest).take n) :: chunksGo n fuel ((a :: rest).drop n)

def chunks (n : Nat) (l : List α) : List (List α) :=
  chunksGo n l.length l

/-- `harvestBatch`: jobs are processed chunk by chunk; within a chunk
`Promise.all` preserves input order regardless of completion order, and chunk
results are appended to `results` in chunk order. -/
def harvestBatch {A : Type} (configs : List (BatchConfig A)) (concurrency : Nat) :
    List (BatchOutcome A) :=
  (chunks concurrency configs).foldl (fun results chunk => results ++ chunk.map jobOutcome) []

/-- `path.join(dir, file)` as used by the session store (external path library;
no normalization is relevant to the claims). -/
def pathJoin (dir file : String) : String := dir ++ "/" ++ file

/-- `SessionManager.hasSession`: `sessions` is the in-memory id → path cache, and
`files` the set of paths present in durable storage. The source returns true
immediately when the cache holds the id, and only otherwise consults
`fs.existsSync`. -/
def hasSession (sessions : List (String × String)) (files : List String)
    (storageDir sessionId : String) : Bool :=
  if (sessions.map Prod.fst).contains sessionId then true
  else files.contains (pathJoin storageDir (sessionId ++ ".json"))

/-- `String.prototype.replace` with a string pattern: only the first (leftmost)
occurrence is replaced. (Only used here with the non-empty pattern ".json".) -/
def listReplaceFirst (pat repl : List Char) : List Char → List Char
  | [] => []
  | c :: cs =>
      if pat.isPrefixOf (c :: cs) then repl ++ (c :: cs).drop pat.length
      else c :: listReplaceFirst pat repl cs

def replaceFirstStr (s pat repl : String) : String :=
  ⟨listReplaceFirst pat.toList repl.toList s.toList⟩

/-- Name of the file `saveSession(sessionId)` writes into the storage directory. -/
def savedFileName (sessionId : String) : String := sessionId ++ ".json"

/-- `file.replace('.json', '')` in `listSessions`. -/
def sessionIdOfFile (file : String) : String := replaceFirstStr file ".json" ""

/-- `SessionManager.listSessions`: directory entries ending in ".json", each with
the first occurrence of ".json" removed. -/
def listSessions (files : List String) : List String :=
  (files.filter (fun f => ".json".toList.isSuffixOf f.toList)).map sessionIdOfFile

/-! Theorems -/

/-- C3: the backoff delay is `min(1000·2^i, cap)` for the exponential strategy and
`min(1000·(i+1), cap)` for the linear strategy; with the source's default cap 10000,
backoff(0, exponential) = 1000, backoff(1) = 2000, backoff(4) = 10000,
backoff(0, linear) = 1000, backoff(9, linear) = 10000; and for every strategy the
delay never exceeds the cap and is non-decreasing in the attempt index. -/
theorem c3_backoff (i cap : Nat) (strategy : String) :
    calculateBackoff i "exponential" cap = min (1000 * 2 ^ i) cap
    ∧ calculateBackoff i "linear" cap = min (1000 * (i + 1)) cap
    ∧ calculateBackoff 0 "exponential" 10000 = 1000
    ∧ calculateBackoff 1 "exponential" 10000 = 2000
    ∧ calculateBackoff 4 "exponential" 10000 = 10000
    ∧ calculateBackoff 0 "linear" 10000 = 1000
    ∧ calculateBackoff 9 "linear" 10000 = 10000
    ∧ calculateBackoff i strategy cap ≤ cap
    ∧ calculateBackoff i strategy cap ≤ calculateBackoff (i + 1) strategy cap := by
  refine ⟨by simp [calculateBackoff], by simp [calculateBackoff], by decide, by decide,
    by decide, by decide, by decide, ?_, ?_⟩
  · unfold calculateBackoff
    split <;> exact min_le_right _ _
  · unfold calculateBackoff
    split
    · exact min_le_min (by omega) le_rfl
    · refine min_le_min (Nat.mul_le_mul_left 1000 ?_) le_rfl
      exact Nat.pow_le_pow_right (by omega) (Nat.le_succ i)

/-- C7: with a null allow-list every error is retried; with an allow-list present,
an error is retried exactly when its name is in the list — in particular, with a
singleton list `[k]`, exactly when the error's name is `k`. -/
theorem c7_shouldRetry (e : JSError) (l : List String) (k : String) :
    shouldRetry e none = true
    ∧ (shouldRetry e (some l) = true ↔ e.name ∈ l)
    ∧ (shouldRetry e (some [k]) = true ↔ e.name = k) := by
  refine ⟨rfl, ?_, ?_⟩ <;> simp [shouldRetry]

/-- C1 (failing input): the claim promises the default for a `attr` descriptor
whose selector matches nothing, but the source's `attrValue !== null` test lets
the `undefined` produced by `targetElement?.getAttribute(...)` through, so the
call returns undefined instead of the default — likewise through the transported
pure-mode procedure. The default *is* substituted for `text` and `html` with a
non-matching selector, and for `attr` when the element exists but lacks the
attribute. -/
theorem c1_attr_default_bypassed :
    executeDSLExtraction (Node.elem "div" [] [])
        (.attrD (some "a") "href" (.str "D")) = .undef
    ∧ JSValue.undef ≠ JSValue.str "D"
    ∧ generateDSLProc [("link", .dsl (.attrD (some "a") "href" (.str "D")))]
        (Node.elem "div" [] []) = .obj [("link", .undef)]
    ∧ executeDSLExtraction (Node.elem "div" [] [])
        (.textD (some "a") true (.str "D")) = .str "D"
    ∧ executeDSLExtraction (Node.elem "div" [] [])
        (.htmlD (some "a") (.str "D")) = .str "D"
    ∧ executeDSLExtraction (Node.elem "div" [] [Node.elem "a" [] []])
        (.attrD (some "a") "href" (.str "D")) = .str "D" := by
  refine ⟨?_, ?_, ?_, ?_, ?_, ?_⟩ <;>
    simp [executeDSLExtraction, resolveTarget, DSLDef.selOf, Node.querySelector,
      Node.querySelectorAll, Node.qsaList, Node.qsaFrom, Node.getAttribute,
      generateDSLProc, jsonRoundFields, jsonRound, jsonRoundDef, execFields, execField,
      List.lookup]

/-- C8 (counterexample): an id cached in the in-memory index is reported as
existing even though durable storage holds no record at all — `hasSession`
returns as soon as the cache hits, without corroborating against storage. -/
theorem c8_counterexample :
    hasSession [("user123", "./sessions/user123.json")] [] "./sessions" "user123" = true
    ∧ ([] : List String).contains (pathJoin "./sessions" ("user123" ++ ".json")) = false := by
  constructor <;> rfl

/-- C8 (amended): `hasSession` reports true exactly when the id is in the
in-memory index *or* a durable record exists; the in-memory index is not
corroborated against storage (a stale cache entry is still reported), while the
storage check covers ids created by other means that the cache misses. -/
theorem c8_hasSession_amended (sessions : List (String × String)) (files : List String)
    (storageDir sessionId : String) :
    (hasSession sessions files storageDir sessionId = true ↔
      (∃ p, (sessionId, p) ∈ sessions) ∨ pathJoin storageDir (sessionId ++ ".json") ∈ files)
    ∧ (pathJoin storageDir (sessionId ++ ".json") ∈ files →
        hasSession sessions files storageDir sessionId = true) := by
  have hc : ∀ (l : List String) (a : String), l.contains a = true ↔ a ∈ l := by
    intro l a
    exact List.elem_iff
  constructor
  · unfold hasSession
    split
    · rename_i hmem
      rw [hc] at hmem
      simp only [List.mem_map] at hmem
      obtain ⟨⟨x, y⟩, hm, hx⟩ := hmem
      simp only [true_iff]
      simp only at hx
      subst hx
      exact Or.inl ⟨y, hm⟩
    · rename_i hmem
      rw [hc] at hmem
      constructor
      · intro hcc
        rw [hc] at hcc
        exact Or.inr hcc
      · rintro (⟨p, hp⟩ | hf)
        · exact absurd (List.mem_map.mpr ⟨(sessionId, p), hp, rfl⟩) hmem
        · rw [hc]
          exact hf
  · intro hf
    unfold hasSession
    split
    · rfl
    · rw [hc]
      exact hf

/-- C8 amended, witness: an id present only on disk is reported as existing. -/
theorem c8_hasSession_amended_witness :
    hasSession [] ["./sessions/a.json"] "./sessions" "a" = true :=
  (c8_hasSession_amended [] ["./sessions/a.json"] "./sessions" "a").2 (by decide)

/-- With positive chunk size and enough fuel, the chunks concatenate back to the
original list. -/
theorem chunksGo_join {α : Type _} (n : Nat) (hn : 0 < n) :
    ∀ (fuel : Nat) (l : List α), l.length ≤ fuel → (chunksGo n fuel l).flatten = l := by
  intro fuel
  induction fuel with
  | zero =>
      intro l hl
      cases l with
      | nil => rfl
      | cons a r => simp at hl
  | succ f ih =>
      intro l hl
      cases l with
      | nil => rfl
      | cons a r =>
          have hlen : ((a :: r).drop n).length ≤ f := by
            simp only [List.length_drop]
            simp only [List.length_cons] at hl ⊢
            omega
          simp only [chunksGo, List.flatten, ih _ hlen, List.take_append_drop]

theorem chunks_join {α : Type _} (n : Nat) (hn : 0 < n) (l : List α) :
    (chunks n l).flatten = l :=
  chunksGo_join n hn l.length l le_rfl

/-- Folding chunk results into the accumulator is mapping over the concatenation. -/
theorem foldl_append_map {α β : Type _} (f : α → β) :
    ∀ (cs : List (List α)) (acc : List β),
      cs.foldl (fun results chunk => results ++ chunk.map f) acc = acc ++ cs.flatten.map f := by
  intro cs
  induction cs with
  | nil => intro acc; simp
  | cons c cs ih =>
      intro acc
      simp only [List.foldl_cons, ih, List.flatten, List.map_append, List.append_assoc]

/-- With positive concurrency the batch is the in-order image of the job list. -/
theorem harvestBatch_eq_map {A : Type} (configs : List (BatchConfig A)) (concurrency : Nat)
    (h : 0 < concurrency) :
    harvestBatch configs concurrency = configs.map jobOutcome := by
  unfold harvestBatch
  rw [foldl_append_map, chunks_join concurrency h]
  rfl

/-- C4: for every job list and positive concurrency, `harvestBatch` returns one
outcome per job with `outcomes[k]` corresponding to `jobs[k]` in input order
(within a chunk `Promise.all` preserves order regardless of completion order);
every job failure is caught and converted into a failure outcome carrying the
error's message and name, so a single job's error never escapes the batch; in
particular 4 jobs at concurrency 2 with job 2 failing yield 4 in-order outcomes
with only job 2 failed. (The source's chunk loop never terminates at
concurrency 0, whence the positivity hypothesis.) -/
theorem c4_batch_outcomes {A : Type} (configs : List (BatchConfig A)) (concurrency : Nat)
    (h : 0 < concurrency) :
    (harvestBatch configs concurrency).length = configs.length
    ∧ (∀ k : Nat, (harvestBatch configs concurrency)[k]? = (configs[k]?).map jobOutcome)
    ∧ (∀ config : BatchConfig A, ∀ e : JSError, config.run = .error e →
        jobOutcome config = .failed e.message e.name config.url)
    ∧ harvestBatch
        ([⟨"u1", .ok 1⟩, ⟨"u2", .error ⟨"NavigationError", "boom"⟩⟩,
          ⟨"u3", .ok 3⟩, ⟨"u4", .ok 4⟩] : List (BatchConfig Nat)) 2
      = [.ok 1 "u1", .failed "boom" "NavigationError" "u2", .ok 3 "u3", .ok 4 "u4"] := by
  refine ⟨?_, ?_, ?_, by rfl⟩
  · rw [harvestBatch_eq_map configs concurrency h, List.length_map]
  · intro k
    rw [harvestBatch_eq_map configs concurrency h, List.getElem?_map]
  · intro config e he
    unfold jobOutcome
    rw [he]

/-- C4, witness at the claim's concrete scenario. -/
theorem c4_batch_outcomes_witness :
    (harvestBatch
        ([⟨"u1", .ok 1⟩, ⟨"u2", .error ⟨"NavigationError", "boom"⟩⟩,
          ⟨"u3", .ok 3⟩, ⟨"u4", .ok 4⟩] : List (BatchConfig Nat)) 2).length = 4 :=
  ((c4_batch_outcomes
      ([⟨"u1", .ok 1⟩, ⟨"u2", .error ⟨"NavigationError", "boom"⟩⟩,
        ⟨"u3", .ok 3⟩, ⟨"u4", .ok 4⟩] : List (BatchConfig Nat)) 2 (by decide)).1).trans rfl

/-- Replacing the first occurrence of a non-self-overlapping pattern in `l ++ pat`,
when `pat` does not occur in `l`, removes exactly the trailing `pat`. -/
theorem listReplaceFirst_append_self (pat : List Char)
    (hno : ∀ k : Nat, k < pat.length → 0 < k →
      pat.take k ++ pat.take (pat.length - k) ≠ pat) :
    ∀ l : List Char, ¬ pat <:+: l → listReplaceFirst pat [] (l ++ pat) = l := by
  intro l
  induction l with
  | nil =>
      intro _
      simp only [List.nil_append]
      cases pat with
      | nil => rfl
      | cons c cs =>
          simp [listReplaceFirst, List.isPrefixOf_iff_prefix, List.drop_length]
  | cons c cs ih =>
      intro hinf
      show (if pat.isPrefixOf (c :: cs ++ pat) then [] ++ (c :: cs ++ pat).drop pat.length
           else c :: listReplaceFirst pat [] (cs ++ pat)) = c :: cs
      rw [if_neg, ih (fun hi => hinf (List.infix_cons hi))]
      intro hp
      rw [List.isPrefixOf_iff_prefix] at hp
      rcases Nat.lt_or_ge (c :: cs).length pat.length with hlt | hge
      · -- the match starts inside `c :: cs` and runs into the appended `pat`:
        -- `pat` would have to overlap itself, which `hno` excludes
        obtain ⟨t, ht⟩ := hp
        have hsplit : pat.take (c :: cs).length ++ (pat.drop (c :: cs).length ++ t)
            = (c :: cs) ++ pat := by
          rw [← List.append_assoc, List.take_append_drop]
          simpa using ht
        have hlen : (pat.take (c :: cs).length).length = (c :: cs).length := by
          rw [List.length_take]
          exact Nat.min_eq_left (Nat.le_of_lt hlt)
        obtain ⟨he1, he2⟩ := List.append_inj hsplit (by simpa using hlen)
        have hdroppre : pat.drop (c :: cs).length <+: pat := ⟨t, he2⟩
        have hdrop_take : pat.drop (c :: cs).length
            = pat.take (pat.length - (c :: cs).length) := by
          have := List.prefix_iff_eq_take.mp hdroppre
          simpa [List.length_drop] using this
        have hcontr : pat.take (c :: cs).length ++ pat.take (pat.length - (c :: cs).length)
            = pat := by
          rw [← hdrop_take]
          conv_rhs => rw [← List.take_append_drop (c :: cs).length pat]
        exact hno (c :: cs).length hlt (by simp) hcontr
      · -- the whole match lies inside `c :: cs`, so `pat` occurs in it
        have hpp : pat <+: c :: cs := by
          have h2 : (c :: cs) <+: (c :: cs) ++ pat := List.prefix_append _ _
          exact List.prefix_of_prefix_length_le (by simpa using hp) h2 hge
        exact hinf hpp.isInfix

/-- The pattern ".json" does not overlap itself. -/
theorem json_pattern_no_overlap :
    ∀ k : Nat, k < (".json".toList).length → 0 < k →
      (".json".toList).take k ++ (".json".toList).take ((".json".toList).length - k)
        ≠ ".json".toList := by
  decide

/-- C10: `listSessions` strips only the first occurrence of ".json" from each
stored file name, so a saved id without ".json" as a substring is reported
verbatim, while the saved id "a.json.b" comes back as "a.b.json". -/
theorem c10_listSessions (sessionId : String)
    (h : ¬ (".json".toList <:+: sessionId.toList)) :
    listSessions [savedFileName sessionId] = [sessionId]
    ∧ sessionIdOfFile (savedFileName "a.json.b") = "a.b.json"
    ∧ "a.b.json" ≠ "a.json.b" := by
  refine ⟨?_, by rfl, by decide⟩
  have hsuf : (".json".toList).isSuffixOf ((sessionId ++ ".json").toList) = true := by
    rw [List.isSuffixOf_iff_suffix]
    show _ <:+ (sessionId ++ ".json").data
    rw [String.data_append]
    exact List.suffix_append _ _
  have hstep : sessionIdOfFile (sessionId ++ ".json") = sessionId := by
    unfold sessionIdOfFile replaceFirstStr
    have hdata : (sessionId ++ ".json").toList = sessionId.toList ++ ".json".toList := by
      exact String.data_append _ _
    rw [show ("" : String).toList = [] from rfl, hdata,
      listReplaceFirst_append_self (".json".toList) json_pattern_no_overlap
        sessionId.toList h]
    rfl
  simp [listSessions, savedFileName, List.filter_cons, hsuf, hstep]

/-- C10, witness: a plain id round-trips through save and list. -/
theorem c10_listSessions_witness :
    listSessions [savedFileName "user123"] = ["user123"] :=
  (c10_listSessions "user123" (by decide)).1

/-- Setting a key in the per-domain map makes it the one looked up. -/
theorem lookup_setAssoc (m : List (String × List Nat)) (d : String) (ts : List Nat) :
    (setAssoc m d ts).lookup d = some ts := by
  induction m with
  | nil => simp [setAssoc, List.lookup]
  | cons kv rest ih =>
      obtain ⟨k, v⟩ := kv
      by_cases hk : k = d
      · simp [setAssoc, hk, List.lookup]
      · have hbeq : (d == k) = false := by
          simp [beq_eq_false_iff_ne]
          exact fun hdk => hk hdk.symm
        simp [setAssoc, hk, List.lookup, hbeq, ih]

/-- C5: on acquire, each enforced scope purges entries older than `now − windowMs`
before its quota check (so the post-state holds only in-window stamps, for the
global list and for the acquired domain's list alike); if after the purge the
count is below the quota the call completes immediately, and otherwise it waits
until `oldest + windowMs − now`; and three back-to-back acquisitions against a
quota of 2 per 1000 time units take at least 1000 time units in total. -/
theorem c5_rate_limiter (cfg : RLConfig) (ts : List Nat) (dm : List (String × List Nat))
    (d : String) (t0 : Nat) (hper : 0 < cfg.per) :
    (∀ x ∈ (scopeAcquire cfg ts t0 t0).1, (t0 : Int) - cfg.per < x)
    ∧ ((cleanOldTimestamps ts cfg.per t0).length < cfg.requests →
        (scopeAcquire cfg ts t0 t0).2 = t0)
    ∧ (∀ oldest : Nat, cfg.requests ≤ (cleanOldTimestamps ts cfg.per t0).length →
        (cleanOldTimestamps ts cfg.per t0).head? = some oldest →
        (scopeAcquire cfg ts t0 t0).2 = max t0 (oldest + cfg.per))
    ∧ (waitIfNeeded (some cfg) none none ⟨ts, dm⟩ t0
        = (⟨(scopeAcquire cfg ts t0 t0).1, dm⟩, (scopeAcquire cfg ts t0 t0).2))
    ∧ (((waitIfNeeded none (some cfg) (some d) ⟨ts, dm⟩ t0).1.domainTimestamps).lookup d
        = some ((scopeAcquire cfg ((dm.lookup d).getD []) t0 t0).1))
    ∧ (1000 ≤
        (let l : RLConfig := ⟨2, 1000⟩
         let r1 := waitIfNeeded (some l) none none ⟨[], []⟩ 0
         let r2 := waitIfNeeded (some l) none none r1.1 r1.2
         let r3 := waitIfNeeded (some l) none none r2.1 r2.2
         r3.2)) := by
  refine ⟨?_, ?_, ?_, ?_, ?_, by decide⟩
  · intro x hx
    unfold scopeAcquire cleanOldTimestamps at hx
    simp only [List.mem_append, List.mem_filter, List.mem_singleton] at hx
    rcases hx with ⟨_, hlt⟩ | hx
    · exact of_decide_eq_true hlt
    · subst hx
      split
      · split
        · split <;> omega
        · omega
      · omega
  · intro hlt
    unfold scopeAcquire
    simp only
    rw [if_neg (by omega)]
  · intro oldest hq hh
    unfold scopeAcquire
    simp only
    rw [if_pos hq, hh]
    simp only
    split <;> omega
  · unfold waitIfNeeded
    rfl
  · unfold waitIfNeeded
    simp only
    exact lookup_setAssoc dm d _

/-- C5, witness: a fresh limiter lets the first acquisition through with no wait. -/
theorem c5_rate_limiter_witness :
    (scopeAcquire ⟨2, 1000⟩ [] 0 0).2 = 0 :=
  (c5_rate_limiter ⟨2, 1000⟩ [] [] "example.com" 0 (by decide)).2.1 (by decide)

/-- Backoff sleeps and attempt starts are the only events a loop iteration emits
before its attempt's outcome is known. -/
theorem no_rl_pre (attempt : Nat) (strategy : String) (mb : Nat) :
    HarvestEvent.rateLimitAcquire
      ∉ ((if 0 < attempt then [HarvestEvent.sleep (calculateBackoff (attempt - 1) strategy mb)]
          else []) ++ [HarvestEvent.attemptStart attempt]) := by
  split <;> simp

/-- A retry iteration with a positive attempt index begins with the backoff sleep
for the previous attempt, immediately followed by the attempt start. -/
theorem harvestLoop_take_two {A : Type} (attemptResult : Nat → Except JSError A)
    (retries : Nat) (strategy : String) (maxBackoff : Nat)
    (retryOn : Option (List String)) (j : Nat) (hj : 0 < j) :
    (harvestLoop attemptResult retries strategy maxBackoff retryOn j).1.take 2
      = [.sleep (calculateBackoff (j - 1) strategy maxBackoff), .attemptStart j] := by
  rw [harvestLoop]
  cases har : attemptResult j with
  | ok a => simp [hj]
  | error e =>
      by_cases hlt : j < retries
      · by_cases hsr : shouldRetry e retryOn
        · simp [hlt, hsr, hj]
        · simp [hlt, hsr, hj]
      · simp [hlt, hj]

/-- C6: when attempt `i` fails, the loop re-attempts exactly when `i < retries`
(`maxAttempts − 1` with `maxAttempts = retries + 1`) and the error is retryable
per the policy, in which case the next iteration begins by sleeping
`backoff(i)` before attempt `i+1`; otherwise the loop ends with the error
observer invoked (`handleError`, which notifies `onError` with contextual
metadata) and the last error propagated; a successful attempt returns its
result at once with no further events. -/
theorem c6_retry_policy {A : Type} (attemptResult : Nat → Except JSError A)
    (retries : Nat) (strategy : String) (maxBackoff : Nat)
    (retryOn : Option (List String)) (i : Nat) (e : JSError) :
    (attemptResult i = .error e → i < retries → shouldRetry e retryOn = true →
      (harvestLoop attemptResult retries strategy maxBackoff retryOn i).1
          = ((if 0 < i then [.sleep (calculateBackoff (i - 1) strategy maxBackoff)] else [])
              ++ [.attemptStart i])
            ++ (harvestLoop attemptResult retries strategy maxBackoff retryOn (i + 1)).1
        ∧ (harvestLoop attemptResult retries strategy maxBackoff retryOn i).2
          = (harvestLoop attemptResult retries strategy maxBackoff retryOn (i + 1)).2
        ∧ (harvestLoop attemptResult retries strategy maxBackoff retryOn (i + 1)).1.take 2
          = [.sleep (calculateBackoff i strategy maxBackoff), .attemptStart (i + 1)])
    ∧ (attemptResult i = .error e → ¬ (i < retries ∧ shouldRetry e retryOn = true) →
        harvestLoop attemptResult retries strategy maxBackoff retryOn i
          = (((if 0 < i then [.sleep (calculateBackoff (i - 1) strategy maxBackoff)] else [])
              ++ [.attemptStart i]) ++ [.observeError e], .error e))
    ∧ (∀ a : A, attemptResult i = .ok a →
        harvestLoop attemptResult retries strategy maxBackoff retryOn i
          = ((if 0 < i then [.sleep (calculateBackoff (i - 1) strategy maxBackoff)] else [])
              ++ [.attemptStart i], .ok a)) := by
  refine ⟨?_, ?_, ?_⟩
  · intro he hlt hsr
    refine ⟨?_, ?_, harvestLoop_take_two attemptResult retries strategy maxBackoff retryOn
      (i + 1) (by omega)⟩ <;>
    · conv_lhs => rw [harvestLoop]
      simp [he, hlt, hsr]
  · intro he hnot
    rw [harvestLoop]
    simp only [he]
    rcases Nat.lt_or_ge i retries with hlt | hge
    · have hsr : shouldRetry e retryOn = false := by
        cases hb : shouldRetry e retryOn
        · rfl
        · exact absurd ⟨hlt, hb⟩ hnot
      rw [dif_pos hlt, if_neg (by simp [hsr])]
    · rw [dif_neg (by omega)]
  · intro a he
    rw [harvestLoop]
    simp only [he]

/-- C6, witness: one failing attempt with one retry available under the default
(retry-all) policy hands the result of the loop restarted at attempt 1. -/
theorem c6_retry_policy_witness :
    (harvestLoop
        (fun n => if n = 0 then (.error ⟨"TimeoutError", "x"⟩ : Except JSError Nat) else .ok 7)
        1 "exponential" 10000 none 0).2
      = (harvestLoop
          (fun n => if n = 0 then (.error ⟨"TimeoutError", "x"⟩ : Except JSError Nat) else .ok 7)
          1 "exponential" 10000 none 1).2 :=
  ((c6_retry_policy
      (fun n => if n = 0 then (.error ⟨"TimeoutError", "x"⟩ : Except JSError Nat) else .ok 7)
      1 "exponential" 10000 none 0 ⟨"TimeoutError", "x"⟩).1
    (by simp) (by decide) (by rfl)).2.1

/-- The retry loop itself never performs a rate-limiter acquire, at any attempt
index (fuel-indexed induction along the loop's recursion). -/
theorem harvestLoop_no_rl {A : Type} (attemptResult : Nat → Except JSError A)
    (retries : Nat) (strategy : String) (maxBackoff : Nat)
    (retryOn : Option (List String)) :
    ∀ (fuel attempt : Nat), retries - attempt ≤ fuel →
      HarvestEvent.rateLimitAcquire
        ∉ (harvestLoop attemptResult retries strategy maxBackoff retryOn attempt).1 := by
  intro fuel
  induction fuel with
  | zero =>
      intro attempt hf
      have hge : ¬ attempt < retries := by omega
      rw [harvestLoop]
      cases har : attemptResult attempt with
      | ok a => simp
      | error e => simp [hge, no_rl_pre attempt strategy maxBackoff]
  | succ f ih =>
      intro attempt hf
      rw [harvestLoop]
      cases har : attemptResult attempt with
      | ok a => simp
      | error e =>
          by_cases hlt : attempt < retries
          · by_cases hsr : shouldRetry e retryOn
            · have hih := ih (attempt + 1) (by omega)
              simp [hlt, hsr, hih, no_rl_pre attempt strategy maxBackoff]
            · simp [hlt, hsr, no_rl_pre attempt strategy maxBackoff]
          · simp [hlt, no_rl_pre attempt strategy maxBackoff]

/-- C9: a configured rate limiter is acquired exactly once per `harvest` or
`harvestCustom` call, before the first attempt; retried attempts never acquire
again (the loop performs no acquire events), and without a limiter no acquire
happens at all. -/
theorem c9_rate_limit_once {A : Type} (attemptResult : Nat → Except JSError A)
    (retries : Nat) (strategy : String) (maxBackoff : Nat)
    (retryOn : Option (List String)) :
    (harvestProc true attemptResult retries strategy maxBackoff retryOn).1.count
        .rateLimitAcquire = 1
    ∧ (harvestProc true attemptResult retries strategy maxBackoff retryOn).1.head?
        = some .rateLimitAcquire
    ∧ (harvestProc false attemptResult retries strategy maxBackoff retryOn).1.count
        .rateLimitAcquire = 0
    ∧ (harvestCustomProc true attemptResult retries strategy maxBackoff retryOn).1.count
        .rateLimitAcquire = 1
    ∧ (harvestCustomProc true attemptResult retries strategy maxBackoff retryOn).1.head?
        = some .rateLimitAcquire := by
  have hno := harvestLoop_no_rl attemptResult retries strategy maxBackoff retryOn retries 0
    (by omega)
  have hcount : (harvestLoop attemptResult retries strategy maxBackoff retryOn 0).1.count
      HarvestEvent.rateLimitAcquire = 0 := List.count_eq_zero.mpr hno
  refine ⟨?_, ?_, ?_, ?_, ?_⟩ <;>
    simp [harvestProc, harvestCustomProc, List.count_cons, List.count_append, hcount]

/-- C2: for a mixed schema with one `text()` descriptor field and one callback
field, the transported mixed-mode procedure — the callback captured and bound to
the generated placeholder `__FUNC_0__` which is spliced into the serialized data
literal, then executed by the transported generic interpreter — produces a record
with both keys whose values equal direct host-side execution (`executeDSLObject`),
i.e. the `text()` field extracts as the descriptor dictates and the callback field
is the callback's value on the element.  The side conditions keep the schema's own
strings distinct from the generated placeholder, matching the source's
first-occurrence string splice. -/
theorem c2_mixed_mode (k1 k2 : String) (sel : Option String) (tr : Bool) (df : JSValue)
    (f : Node → JSValue) (el : Node)
    (hk : k1 ≠ k2)
    (h1 : k1 ≠ marker 0) (h2 : k2 ≠ marker 0)
    (hdf : df ≠ .str (marker 0)) (hsel : sel ≠ some (marker 0)) :
    generateMixedModeProc [(k1, .dsl (.textD sel tr df)), (k2, .funcV f)] el
      = executeDSLObject el [(k1, .dsl (.textD sel tr df)), (k2, .funcV f)]
    ∧ generateMixedModeProc [(k1, .dsl (.textD sel tr df)), (k2, .funcV f)] el
      = .obj [(k1, executeDSLExtraction el (.textD sel tr df)), (k2, f el)] := by
  have he : generateMixedModeProc [(k1, .dsl (.textD sel tr df)), (k2, .funcV f)] el
      = executeDSLObject el [(k1, .dsl (.textD sel tr df)), (k2, .funcV f)] := by
    simp [generateMixedModeProc, replFunsFields, replFuns, jsonRoundFields, jsonRound,
      jsonRoundDef, subMarkersFields, subMarkers, executeDSLObject, List.lookup]
  refine ⟨he, he.trans ?_⟩
  simp [executeDSLObject, execFields, execField]

/-- C2, witness: a concrete mixed schema of one text field and one callback. -/
theorem c2_mixed_mode_witness :
    generateMixedModeProc
        [("title", .dsl (.textD (some "h2") true .null)),
         ("score", .funcV (fun _ => .num 5))] (Node.elem "div" [] [])
      = .obj [("title", executeDSLExtraction (Node.elem "div" [] [])
                  (.textD (some "h2") true .null)),
              ("score", .num 5)] :=
  (c2_mixed_mode "title" "score" (some "h2") true .null (fun _ => .num 5)
      (Node.elem "div" [] []) (by decide) (by decide) (by decide)
      (fun h => JSValue.noConfusion h) (by decide)).2

end DomHarvest
